import Mathlib

/-!
Verification development for the well block-average pressure calculator
(PAvgCalculator.cpp of opm-common).

The C++ doubles are modelled as exact rationals.  Under exact arithmetic
the compensation term of the Kahan running sum vanishes after every
addition, so the embedding keeps the compensation algorithm literally
while its error term carries no rounding information; statements about
floating-point rounding behaviour are outside this model.
-/

namespace OpmPAvg

/-- Kahan compensated running sum (class RunningCompensatedSummation).
The field val embeds the member value_ and err embeds err_. -/
structure RunningCompensatedSummation where
  val : ℚ
  err : ℚ
deriving DecidableEq, Repr

namespace RunningCompensatedSummation

/-- Accumulation of one term: the body of operator+=(const T& x). -/
def addTerm (r : RunningCompensatedSummation) (x : ℚ) : RunningCompensatedSummation :=
  let t := r.val
  let err1 := r.err + x
  let val1 := t + err1
  let err2 := err1 + (t - val1)
  ⟨val1, err2⟩

/-- Accumulation of another running sum: operator+= on a sum argument adds
the value of the other sum and intentionally discards its error term. -/
def addSum (r other : RunningCompensatedSummation) : RunningCompensatedSummation :=
  r.addTerm other.val

/-- Multiplication operator: multiplies the sum value, leaves the error intact. -/
def mulBy (r : RunningCompensatedSummation) (alpha : ℚ) : RunningCompensatedSummation :=
  ⟨r.val * alpha, r.err⟩

/-- The state produced by clear(): sum value and error estimate both zero. -/
def clear : RunningCompensatedSummation := ⟨0, 0⟩

end RunningCompensatedSummation

/-- Weighted running average (class WeightedRunningAverage): a compensated
sum of weighted terms and a compensated sum of the weights. -/
structure WeightedRunningAverage where
  sum : RunningCompensatedSummation
  weight : RunningCompensatedSummation
deriving DecidableEq, Repr

namespace WeightedRunningAverage

/-- The state produced by clear(). -/
def cleared : WeightedRunningAverage := ⟨.clear, .clear⟩

/-- add(x, w): accumulate w*x into the sum and w into the weight. -/
def add (a : WeightedRunningAverage) (x w : ℚ) : WeightedRunningAverage :=
  ⟨a.sum.addTerm (w * x), a.weight.addTerm w⟩

/-- operator+=(other): merge two averages at the sum level. -/
def combine (a other : WeightedRunningAverage) : WeightedRunningAverage :=
  ⟨a.sum.addSum other.sum, a.weight.addSum other.weight⟩

/-- operator*=(alpha): scales the sum only. -/
def scale (a : WeightedRunningAverage) (alpha : ℚ) : WeightedRunningAverage :=
  ⟨a.sum.mulBy alpha, a.weight⟩

end WeightedRunningAverage

/-- Absolute value on the rationals, written out so that it evaluates by
kernel reduction (the lattice absolute value of Mathlib does not). -/
def absQ (q : ℚ) : ℚ := if q < 0 then -q else q

/-- The executable absolute value agrees with the lattice absolute value. -/
theorem absQ_eq_abs (q : ℚ) : absQ q = |q| := by
  rcases lt_trichotomy q 0 with h | h | h
  · simp [absQ, h, abs_of_neg h]
  · simp [absQ, h]
  · simp [absQ, not_lt.mpr h.le, abs_of_pos h]

/-- The executable absolute value is positive exactly on the nonzero
rationals. -/
theorem absQ_pos_iff (q : ℚ) : 0 < absQ q ↔ q ≠ 0 := by
  rw [absQ_eq_abs]; exact abs_pos

/-- Free function value(avg): sum divided by weight when the absolute value
of the total weight is positive, otherwise the default value 0. -/
def value (a : WeightedRunningAverage) : ℚ :=
  if 0 < absQ a.weight.val then a.sum.val / a.weight.val else 0

/-- add(x, w) with a WeightedRunningAverage argument: the current value of
the other average is treated as one sample with the given weight. -/
def WeightedRunningAverage.addAvg (a x : WeightedRunningAverage) (w : ℚ) :
    WeightedRunningAverage :=
  a.add (value x) w

/-- PAvgCalculator::Accumulator::Impl: four result averages
(avg0 = WBP, avg1 = WBP4, avg2 = WBP5, avg3 = WBP9) and three term
averages (term0 = centre, term1 = rectangular, term2 = diagonal). -/
structure Accumulator where
  avg0 : WeightedRunningAverage
  avg1 : WeightedRunningAverage
  avg2 : WeightedRunningAverage
  avg3 : WeightedRunningAverage
  term0 : WeightedRunningAverage
  term1 : WeightedRunningAverage
  term2 : WeightedRunningAverage
deriving DecidableEq, Repr

namespace Accumulator

/-- The freshly constructed accumulator: every average cleared. -/
def zero : Accumulator :=
  ⟨.cleared, .cleared, .cleared, .cleared, .cleared, .cleared, .cleared⟩

instance : Inhabited Accumulator := ⟨zero⟩

/-- addCentre(weight, press): feed the centre term. -/
def addCentre (a : Accumulator) (weight press : ℚ) : Accumulator :=
  { a with term0 := a.term0.add press weight }

/-- addRectangular(weight, press): feed the rectangular term. -/
def addRectangular (a : Accumulator) (weight press : ℚ) : Accumulator :=
  { a with term1 := a.term1.add press weight }

/-- addDiagonal(weight, press): feed the diagonal term. -/
def addDiagonal (a : Accumulator) (weight press : ℚ) : Accumulator :=
  { a with term2 := a.term2.add press weight }

/-- add(weight, other): fold the current value of each result average of
the other accumulator into the corresponding own result average, as one
sample with the given weight. -/
def add (a : Accumulator) (weight : ℚ) (other : Accumulator) : Accumulator :=
  { a with
    avg0 := a.avg0.addAvg other.avg0 weight
    avg1 := a.avg1.addAvg other.avg1 weight
    avg2 := a.avg2.addAvg other.avg2 weight
    avg3 := a.avg3.addAvg other.avg3 weight }

/-- prepareAccumulation(): zero out the four result averages. -/
def prepareAccumulation (a : Accumulator) : Accumulator :=
  { a with avg0 := .cleared, avg1 := .cleared, avg2 := .cleared, avg3 := .cleared }

/-- prepareContribution(): zero out the three term averages. -/
def prepareContribution (a : Accumulator) : Accumulator :=
  { a with term0 := .cleared, term1 := .cleared, term2 := .cleared }

/-- combineDirect(): direct, unweighted combination of the terms into the
WBP5 and WBP9 results. -/
def combineDirect (a : Accumulator) : Accumulator :=
  { a with
    avg2 := (a.avg2.combine a.term0).combine a.term1
    avg3 := ((a.avg3.combine a.term0).combine a.term1).combine a.term2 }

/-- combineWeighted(innerWeight): weighted combination of the terms into
the WBP5 and WBP9 results; the outer average pools the rectangular and
diagonal terms at the sum level. -/
def combineWeighted (a : Accumulator) (innerWeight : ℚ) : Accumulator :=
  let outer := a.term1.combine a.term2
  { a with
    avg2 := (a.avg2.addAvg a.term0 innerWeight).addAvg a.term1 (1 - innerWeight)
    avg3 := (a.avg3.addAvg a.term0 innerWeight).addAvg outer (1 - innerWeight) }

/-- commitContribution(innerWeight): always fold the centre term into WBP
and the rectangular term into WBP4; then combine directly when the inner
weight is negative and with the inner weighting otherwise. -/
def commitContribution (a : Accumulator) (innerWeight : ℚ) : Accumulator :=
  let a1 := { a with avg0 := a.avg0.combine a.term0, avg1 := a.avg1.combine a.term1 }
  if innerWeight < 0 then a1.combineDirect else a1.combineWeighted innerWeight

/-- getRunningAverages(): serialize the four result averages as eight raw
numbers, sum and weight pairs in order. -/
def getRunningAverages (a : Accumulator) : List ℚ :=
  [a.avg0.sum.val, a.avg0.weight.val, a.avg1.sum.val, a.avg1.weight.val,
   a.avg2.sum.val, a.avg2.weight.val, a.avg3.sum.val, a.avg3.weight.val]

/-- assignRunningAverages(a): overwrite the sum value and weight value of
each result average from the buffer; the error estimates are untouched
because the source assigns through mutableSum()/mutableWeight(). -/
def assignRunningAverages (a : Accumulator) (l : List ℚ) : Accumulator :=
  { a with
    avg0 := ⟨⟨l.getD 0 0, a.avg0.sum.err⟩, ⟨l.getD 1 0, a.avg0.weight.err⟩⟩
    avg1 := ⟨⟨l.getD 2 0, a.avg1.sum.err⟩, ⟨l.getD 3 0, a.avg1.weight.err⟩⟩
    avg2 := ⟨⟨l.getD 4 0, a.avg2.sum.err⟩, ⟨l.getD 5 0, a.avg2.weight.err⟩⟩
    avg3 := ⟨⟨l.getD 6 0, a.avg3.sum.err⟩, ⟨l.getD 7 0, a.avg3.weight.err⟩⟩ }

end Accumulator

/-- PAvgCalculator::Result: the four named block-average pressures. -/
structure Result where
  wbp : ℚ
  wbp4 : ℚ
  wbp5 : ℚ
  wbp9 : ℚ
deriving DecidableEq, Repr

/-- The default-constructed result. -/
def Result.zero : Result := ⟨0, 0, 0, 0⟩

instance : Inhabited Result := ⟨Result.zero⟩

/-- linearCombination(alpha, x, beta, y): componentwise alpha*x + beta*y. -/
def linearCombination (alpha : ℚ) (x : Result) (beta : ℚ) (y : Result) : Result :=
  ⟨alpha * x.wbp + beta * y.wbp,
   alpha * x.wbp4 + beta * y.wbp4,
   alpha * x.wbp5 + beta * y.wbp5,
   alpha * x.wbp9 + beta * y.wbp9⟩

/-- getFinalResult(): read out the values of the four result averages. -/
def Accumulator.getFinalResult (a : Accumulator) : Result :=
  ⟨value a.avg0, value a.avg1, value a.avg2, value a.avg3⟩

/-- In exact arithmetic one Kahan accumulation adds the term together with
the pending compensation and leaves a zero error estimate. -/
theorem addTerm_eq (r : RunningCompensatedSummation) (x : ℚ) :
    r.addTerm x = ⟨r.val + r.err + x, 0⟩ := by
  simp only [RunningCompensatedSummation.addTerm, RunningCompensatedSummation.mk.injEq]
  constructor <;> ring

/-- C5: value() returns sum divided by weight when the accumulated weight
is nonzero (absolute value greater than zero), and returns exactly 0 when
the accumulated weight is zero, never dividing by zero. -/
theorem value_zero_weight_spec (a : WeightedRunningAverage) :
    (a.weight.val = 0 → value a = 0)
    ∧ (a.weight.val ≠ 0 → value a = a.sum.val / a.weight.val) := by
  constructor
  · intro h; simp [value, absQ, h]
  · intro h; simp [value, (absQ_pos_iff _).mpr h]

/-- C5 witness: an average with weight 0 has value exactly 0, and an
average with sum 6 and weight 2 has value 3. -/
theorem value_zero_weight_spec_w :
    value ⟨⟨7, 0⟩, ⟨0, 0⟩⟩ = 0 ∧ value ⟨⟨6, 0⟩, ⟨2, 0⟩⟩ = 3 := by
  refine ⟨(value_zero_weight_spec ⟨⟨7, 0⟩, ⟨0, 0⟩⟩).1 rfl, ?_⟩
  rw [(value_zero_weight_spec ⟨⟨6, 0⟩, ⟨2, 0⟩⟩).2 (by norm_num)]
  norm_num

/-- C10: reinjecting the buffer produced by getRunningAverages through
assignRunningAverages restores each result average exactly, so
getFinalResult yields the same four pressures after the round trip. -/
theorem runningAverages_roundtrip (a : Accumulator) :
    a.assignRunningAverages a.getRunningAverages = a
    ∧ (a.assignRunningAverages a.getRunningAverages).getFinalResult
        = a.getFinalResult := by
  have h : a.assignRunningAverages a.getRunningAverages = a := rfl
  exact ⟨h, by rw [h]⟩

/-- C3: starting from cleared result averages and arbitrary term averages,
committing with inner weight 0 makes the WBP5 value the value of the
rectangular term alone, and committing with inner weight 1 makes it the
value of the centre term alone. -/
theorem commit_zero_one_wbp5 (a : Accumulator) :
    value ((a.prepareAccumulation.commitContribution 0).avg2) = value a.term1
    ∧ value ((a.prepareAccumulation.commitContribution 1).avg2) = value a.term0 := by
  constructor <;>
  · simp only [Accumulator.prepareAccumulation, Accumulator.commitContribution,
      Accumulator.combineWeighted, Accumulator.combineDirect,
      WeightedRunningAverage.addAvg, WeightedRunningAverage.add,
      WeightedRunningAverage.combine, WeightedRunningAverage.cleared,
      RunningCompensatedSummation.clear, RunningCompensatedSummation.addSum,
      addTerm_eq]
    norm_num [value, absQ]

/-- C2: committing with a negative inner weight adds the centre and
rectangular term sums and weights directly (unweighted) into the WBP5
result and the centre, rectangular and diagonal terms into the WBP9
result, and the outcome does not depend on the magnitude of the negative
weight.  The error-estimate hypotheses hold in every state the program
constructs (exact arithmetic leaves the estimates at zero). -/
theorem commit_negative_direct (a : Accumulator) (w : ℚ) (hw : w < 0)
    (h2s : a.avg2.sum.err = 0) (h2w : a.avg2.weight.err = 0)
    (h3s : a.avg3.sum.err = 0) (h3w : a.avg3.weight.err = 0) :
    ((a.commitContribution w).avg2.sum.val
        = a.avg2.sum.val + a.term0.sum.val + a.term1.sum.val
     ∧ (a.commitContribution w).avg2.weight.val
        = a.avg2.weight.val + a.term0.weight.val + a.term1.weight.val
     ∧ (a.commitContribution w).avg3.sum.val
        = a.avg3.sum.val + a.term0.sum.val + a.term1.sum.val + a.term2.sum.val
     ∧ (a.commitContribution w).avg3.weight.val
        = a.avg3.weight.val + a.term0.weight.val + a.term1.weight.val + a.term2.weight.val)
    ∧ ∀ w2, w2 < 0 → a.commitContribution w = a.commitContribution w2 := by
  constructor
  · simp only [Accumulator.commitContribution, if_pos hw, Accumulator.combineDirect,
      WeightedRunningAverage.combine, RunningCompensatedSummation.addSum, addTerm_eq,
      h2s, h2w, h3s, h3w]
    refine ⟨by ring, by ring, by ring, by ring⟩
  · intro w2 hw2
    simp only [Accumulator.commitContribution, if_pos hw, if_pos hw2]

/-- A sample accumulator state with exact (zero) error estimates, used to
instantiate accumulator-level theorems. -/
def exAccum : Accumulator :=
  ⟨⟨⟨1, 0⟩, ⟨1, 0⟩⟩, ⟨⟨2, 0⟩, ⟨1, 0⟩⟩, ⟨⟨5, 0⟩, ⟨2, 0⟩⟩, ⟨⟨7, 0⟩, ⟨3, 0⟩⟩,
   ⟨⟨11, 0⟩, ⟨1, 0⟩⟩, ⟨⟨13, 0⟩, ⟨2, 0⟩⟩, ⟨⟨17, 0⟩, ⟨4, 0⟩⟩⟩

/-- C2 witness: at a concrete state the WBP5 sum is incremented by the
centre and rectangular term sums, and two different negative inner
weights give the same committed state. -/
theorem commit_negative_direct_w :
    (exAccum.commitContribution (-1)).avg2.sum.val
        = exAccum.avg2.sum.val + exAccum.term0.sum.val + exAccum.term1.sum.val
    ∧ exAccum.commitContribution (-1) = exAccum.commitContribution (-7) :=
  ⟨(commit_negative_direct exAccum (-1) (by norm_num) rfl rfl rfl rfl).1.1,
   (commit_negative_direct exAccum (-1) (by norm_num) rfl rfl rfl rfl).2 (-7) (by norm_num)⟩

/-- Depth correction mode of the WPAVE controls (PAvg::DepthCorrection).
Modelled from the spec: the enumeration is declared in a header that is
not among the shown sources; the recognized enumerators are WELL, RES and
NONE, and unknownCode stands for any other enumerator value, carrying its
integer identifier. -/
inductive DepthCorrection where
  | WELL : DepthCorrection
  | RES : DepthCorrection
  | NONE : DepthCorrection
  | unknownCode : Int → DepthCorrection
deriving DecidableEq, Repr

/-- Modelled from the spec: integer identifier of a depth correction mode
(static_cast to int in the source); the numeric values of the named
enumerators live in a header outside the shown sources, and only the
identifier carried by unknownCode is observable in the claims. -/
def DepthCorrection.code : DepthCorrection → Int
  | .WELL => 1
  | .RES => 2
  | .NONE => 3
  | .unknownCode n => n

/-- WPAVE run-time controls (class PAvg).  Modelled from the spec: the
class is declared outside the shown sources; the calculator reads the
open-connections flag, the inner weight F1, the connection weight F2 and
the depth correction mode. -/
structure PAvgControls where
  openConnections : Bool
  innerWeight : ℚ
  connWeight : ℚ
  depthCorrection : DepthCorrection
deriving DecidableEq, Repr

/-- Per-cell source data: the Pressure, PoreVol and MixtureDensity items
of a well-blocks source span. -/
structure CellSrc where
  pressure : ℚ
  poreVol : ℚ
  mixtureDensity : ℚ
deriving DecidableEq, Repr

/-- External source data provider: wellBlocks indexed by global cell id,
wellConns giving the mixture density item indexed by connection index. -/
structure Sources where
  wellBlocks : ℕ → CellSrc
  wellConns : ℕ → ℚ

/-- PAvgCalculator::PAvgConnection: connection transmissibility factor,
depth, local cell index and the two neighbour index lists. -/
structure PAvgConnection where
  ctf : ℚ
  depth : ℚ
  cell : ℕ
  rectNeighbours : List ℕ
  diagNeighbours : List ℕ
deriving DecidableEq, Repr

instance : Inhabited PAvgConnection := ⟨⟨0, 0, 0, [], []⟩⟩

/-- The state of a PAvgCalculator: contributing cells, connections, the
open-connection subsequence, the two top-level accumulators and the
published result. -/
structure PAvgCalculator where
  contributingCells : List ℕ
  connections : List PAvgConnection
  openConns : List ℕ
  accumCTF : Accumulator
  accumPV : Accumulator
  averagePressures : Result
deriving DecidableEq, Repr

/-- pressureOffset(density, depth, gravity, refDepth). -/
def pressureOffset (density depth gravity refDepth : ℚ) : ℚ :=
  density * (refDepth - depth) * gravity

/-- Error raised by connectionPressureOffset for an unsupported depth
correction mode; it carries the integer identifier of the offending
mode. -/
inductive OffsetError where
  | unsupportedDepthCorrection : Int → OffsetError
deriving DecidableEq, Repr

/-- The connection indices visited by one invocation: the stored
open-connection subsequence when only open connections are processed, the
identity enumeration over all connections otherwise. -/
def connIndexList (pc : PAvgCalculator) (openOnly : Bool) : List ℕ :=
  if openOnly then pc.openConns else List.range pc.connections.length

/-- Source data of the cell with local index i (lookup through the
contributing-cell array). -/
def sampleAt (pc : PAvgCalculator) (sources : Sources) (i : ℕ) : CellSrc :=
  sources.wellBlocks (pc.contributingCells.getD i 0)

/-- connectionPressureOffsetWell: offset from the mixture density reading
of the connection itself. -/
def connectionPressureOffsetWell (pc : PAvgCalculator) (sources : Sources)
    (gravity refDepth : ℚ) (ixs : List ℕ) : List ℚ :=
  ixs.map fun connIx =>
    pressureOffset (sources.wellConns connIx)
      (pc.connections.getD connIx default).depth gravity refDepth

/-- The includeDensity step of connectionPressureOffsetRes: one cell adds
its mixture density weighted by its pore volume. -/
def includeDensity (pc : PAvgCalculator) (sources : Sources)
    (d : WeightedRunningAverage) (i : ℕ) : WeightedRunningAverage :=
  let src := sampleAt pc sources i
  d.add src.mixtureDensity src.poreVol

/-- The pore-volume weighted average mixture density over a connection,
its rectangular neighbours and its diagonal neighbours. -/
def resConnectionDensity (pc : PAvgCalculator) (sources : Sources)
    (conn : PAvgConnection) : WeightedRunningAverage :=
  let d0 := includeDensity pc sources .cleared conn.cell
  let d1 := conn.rectNeighbours.foldl (includeDensity pc sources) d0
  conn.diagNeighbours.foldl (includeDensity pc sources) d1

/-- connectionPressureOffsetRes: offset from the neighbourhood average
mixture density. -/
def connectionPressureOffsetRes (pc : PAvgCalculator) (sources : Sources)
    (gravity refDepth : ℚ) (ixs : List ℕ) : List ℚ :=
  ixs.map fun connIx =>
    let conn := pc.connections.getD connIx default
    pressureOffset (value (resConnectionDensity pc sources conn))
      conn.depth gravity refDepth

/-- connectionPressureOffset: mode dispatch for the per-connection
pressure offsets.  In the rational model the isnormal test on gravity
reduces to gravity being nonzero. -/
def connectionPressureOffset (pc : PAvgCalculator) (sources : Sources)
    (controls : PAvgControls) (gravity refDepth : ℚ) :
    Except OffsetError (List ℚ) :=
  let ixs := connIndexList pc controls.openConnections
  if controls.depthCorrection = .NONE ∨ gravity = 0 then
    .ok (List.replicate ixs.length 0)
  else if controls.depthCorrection = .RES then
    .ok (connectionPressureOffsetRes pc sources gravity refDepth ixs)
  else if controls.depthCorrection ≠ .WELL then
    .error (.unsupportedDepthCorrection controls.depthCorrection.code)
  else
    .ok (connectionPressureOffsetWell pc sources gravity refDepth ixs)

/-- C6: with depth correction NONE, or gravity outside the normal nonzero
range (zero in the rational model), the offset computation succeeds with
an all-zero vector whose length is the number of processed connections,
for every source data input. -/
theorem connectionPressureOffset_none (pc : PAvgCalculator) (sources : Sources)
    (controls : PAvgControls) (g rd : ℚ)
    (h : controls.depthCorrection = .NONE ∨ g = 0) :
    connectionPressureOffset pc sources controls g rd
      = .ok (List.replicate (connIndexList pc controls.openConnections).length 0) := by
  simp only [connectionPressureOffset]
  rw [if_pos h]

/-- A sample controls value requesting no depth correction over all
connections. -/
def exControlsNone : PAvgControls := ⟨false, 1/2, 1/3, .NONE⟩

/-- A sample source data provider with constant cell data. -/
def exSources : Sources := ⟨fun _ => ⟨100, 10, 1000⟩, fun _ => 1000⟩

/-- A sample calculator with two connections used to instantiate
calculator-level theorems. -/
def exCalc2 : PAvgCalculator :=
  ⟨[0, 1, 2, 3, 4],
   [⟨1, 0, 0, [1, 2], []⟩, ⟨1, 0, 3, [4], []⟩],
   [0, 1], .zero, .zero, .zero⟩

/-- C6 witness: the NONE mode yields the zero offset vector of length two
at the sample calculator. -/
theorem connectionPressureOffset_none_w :
    connectionPressureOffset exCalc2 exSources exControlsNone 5 7 = .ok [0, 0] := by
  rw [connectionPressureOffset_none exCalc2 exSources exControlsNone 5 7 (Or.inl rfl)]
  rfl

/-- A depth correction mode is recognized when it is one of NONE, WELL
and RES. -/
def DepthCorrection.recognized : DepthCorrection → Prop :=
  fun m => m = .NONE ∨ m = .WELL ∨ m = .RES

/-- C7: with nonzero gravity the offset computation fails exactly for the
unrecognized depth correction modes, the failure carries the integer
identifier of the offending mode, and every recognized mode succeeds. -/
theorem connectionPressureOffset_error_iff (pc : PAvgCalculator)
    (sources : Sources) (controls : PAvgControls) (g rd : ℚ) (hg : g ≠ 0) :
    ((∃ e, connectionPressureOffset pc sources controls g rd = .error e)
        ↔ ¬ controls.depthCorrection.recognized)
    ∧ (∀ n, controls.depthCorrection = .unknownCode n →
        connectionPressureOffset pc sources controls g rd
          = .error (.unsupportedDepthCorrection n))
    ∧ (controls.depthCorrection.recognized →
        ∃ v, connectionPressureOffset pc sources controls g rd = .ok v) := by
  cases hdc : controls.depthCorrection <;>
    simp [connectionPressureOffset, DepthCorrection.recognized, hdc, hg,
      DepthCorrection.code]

/-- C7 witness: an unrecognized mode with identifier 42 makes the offset
computation fail with that identifier. -/
theorem connectionPressureOffset_error_iff_w :
    connectionPressureOffset exCalc2 exSources ⟨false, 0, 0, .unknownCode 42⟩ 1 0
      = .error (.unsupportedDepthCorrection 42) :=
  (connectionPressureOffset_error_iff exCalc2 exSources
    ⟨false, 0, 0, .unknownCode 42⟩ 1 0 (by norm_num)).2.1 42 rfl

/-- Modelled from the spec: the default inner weight of the commit applied
to the pore-volume accumulator at the end of the local pass.  The default
argument of Accumulator::commitContribution is declared in a header that
is not among the shown sources; a negative value selects the direct
(unweighted) combination, which is the behaviour the spec prescribes for
the pore-volume pass. -/
def pvDefaultInnerWeight : ℚ := -1

/-- One sample fed to one term handler: the pressure of cell i corrected
by dp, weighted by cellW of the cell source data. -/
def feedTerm (pc : PAvgCalculator) (sources : Sources) (cellW : CellSrc → ℚ)
    (dp : ℚ) (handler : Accumulator → ℚ → ℚ → Accumulator)
    (acc : Accumulator) (i : ℕ) : Accumulator :=
  let src := sampleAt pc sources i
  handler acc (cellW src) (src.pressure + dp)

/-- The addContrib closure of the local pass: cell i feeds the same
corrected pressure to the per-connection CTF accumulator (weighted by the
selected CTF pass weight) and to the shared pore-volume accumulator
(weighted by the pore volume of the cell). -/
def contribCell (pc : PAvgCalculator) (sources : Sources) (ctfW : CellSrc → ℚ)
    (dp : ℚ) (i : ℕ) (handler : Accumulator → ℚ → ℚ → Accumulator)
    (st : Accumulator × Accumulator) : Accumulator × Accumulator :=
  let src := sampleAt pc sources i
  let p := src.pressure + dp
  (handler st.1 (ctfW src) p, handler st.2 src.poreVol p)

/-- The loop body of the generic local pass, for one connection: the state
is (outer CTF accumulator, pore-volume accumulator, per-connection CTF
accumulator), and pr is the pair of connection index and depth offset. -/
def processConnection (pc : PAvgCalculator) (sources : Sources) (innerW : ℚ)
    (ctfW : CellSrc → ℚ) (st : Accumulator × Accumulator × Accumulator)
    (pr : ℕ × ℚ) : Accumulator × Accumulator × Accumulator :=
  let conn := pc.connections.getD pr.1 default
  let c0 := st.2.2.prepareAccumulation.prepareContribution
  let s1 := contribCell pc sources ctfW pr.2 conn.cell Accumulator.addCentre (c0, st.2.1)
  let s2 := conn.rectNeighbours.foldl
    (fun s n => contribCell pc sources ctfW pr.2 n Accumulator.addRectangular s) s1
  let s3 := conn.diagNeighbours.foldl
    (fun s n => contribCell pc sources ctfW pr.2 n Accumulator.addDiagonal s) s2
  let c := s3.1.commitContribution innerW
  (st.1.add conn.ctf c, s3.2, c)

/-- The generic local accumulation pass
(PAvgCalculator::accumulateLocalContributions with explicit connection
index map and CTF pressure weight function): prepare the contributions,
loop over the connection/offset pairs, and commit the pore-volume
accumulator once at the end with the default inner weight. -/
def accumulateLocalContributionsG (pc : PAvgCalculator) (sources : Sources)
    (innerW : ℚ) (ctfW : CellSrc → ℚ) (pairs : List (ℕ × ℚ)) :
    Accumulator × Accumulator :=
  let st0 := (pc.accumCTF.prepareContribution, pc.accumPV.prepareContribution,
    Accumulator.zero)
  let st := pairs.foldl (processConnection pc sources innerW ctfW) st0
  (st.1, st.2.1.commitContribution pvDefaultInnerWeight)

/-- Strategy selection of the local pass: a negative inner weight selects
pore-volume weighting of the individual cell contributions in the CTF
pass, a non-negative one selects unit weighting. -/
def accumulateLocalContributionsSel (pc : PAvgCalculator) (sources : Sources)
    (controls : PAvgControls) (pairs : List (ℕ × ℚ)) :
    Accumulator × Accumulator :=
  if controls.innerWeight < 0 then
    accumulateLocalContributionsG pc sources controls.innerWeight
      (fun src => src.poreVol) pairs
  else
    accumulateLocalContributionsG pc sources controls.innerWeight
      (fun _ => 1) pairs

/-- accumulateLocalContributions (outer overload): prepare the two
top-level accumulators, compute the depth offsets, and run the pass over
the open connections or over all connections. -/
def accumulateLocalContributionsTop (pc : PAvgCalculator) (sources : Sources)
    (controls : PAvgControls) (gravity refDepth : ℚ) :
    Except OffsetError PAvgCalculator :=
  let pc1 := { pc with accumCTF := pc.accumCTF.prepareAccumulation,
                       accumPV := pc.accumPV.prepareAccumulation }
  match connectionPressureOffset pc1 sources controls gravity refDepth with
  | .error e => .error e
  | .ok connDP =>
    let pairs := (connIndexList pc1 controls.openConnections).zip connDP
    let r := accumulateLocalContributionsSel pc1 sources controls pairs
    .ok { pc1 with accumCTF := r.1, accumPV := r.2 }

/-- collectGlobalContributions(): the deliberately empty extension point. -/
def collectGlobalContributions (pc : PAvgCalculator) : PAvgCalculator := pc

/-- assignResults(controls): blend the final results of the two top-level
accumulators with weights F2 and 1 - F2 into the published result. -/
def assignResults (pc : PAvgCalculator) (controls : PAvgControls) : PAvgCalculator :=
  let F2 := controls.connWeight
  { pc with averagePressures := linearCombination F2 pc.accumCTF.getFinalResult (1 - F2) pc.accumPV.getFinalResult }

/-- inferBlockAveragePressures: the per-timestep entry point. -/
def inferBlockAveragePressures (pc : PAvgCalculator) (sources : Sources)
    (controls : PAvgControls) (gravity refDepth : ℚ) :
    Except OffsetError PAvgCalculator :=
  match accumulateLocalContributionsTop pc sources controls gravity refDepth with
  | .error e => .error e
  | .ok c => .ok (assignResults (collectGlobalContributions c) controls)

/-- One connection worth of term samples, following the description in the
spec: the centre cell, then the rectangular neighbours, then the diagonal
neighbours feed the matching term of the given accumulator. -/
def connectionSamples (pc : PAvgCalculator) (sources : Sources)
    (cellW : CellSrc → ℚ) (pr : ℕ × ℚ) (acc : Accumulator) : Accumulator :=
  let conn := pc.connections.getD pr.1 default
  let a0 := feedTerm pc sources cellW pr.2 Accumulator.addCentre acc conn.cell
  let a1 := conn.rectNeighbours.foldl
    (feedTerm pc sources cellW pr.2 Accumulator.addRectangular) a0
  conn.diagNeighbours.foldl
    (feedTerm pc sources cellW pr.2 Accumulator.addDiagonal) a1

/-- The committed per-connection accumulator of the spec: a fresh
accumulator receives one connection worth of samples and is committed with
the given inner weight. -/
def connectionCommitted (pc : PAvgCalculator) (sources : Sources)
    (commitW : ℚ) (cellW : CellSrc → ℚ) (pr : ℕ × ℚ) : Accumulator :=
  (connectionSamples pc sources cellW pr Accumulator.zero).commitContribution commitW

/-- The CTF-based pass as the spec words it: each committed per-connection
accumulator is folded into the outer accumulator via add with the CTF of
that connection as the weight. -/
def specCTFAccumulate (pc : PAvgCalculator) (sources : Sources) (innerW : ℚ)
    (ctfW : CellSrc → ℚ) (pairs : List (ℕ × ℚ)) : Accumulator :=
  pairs.foldl
    (fun acc pr => acc.add (pc.connections.getD pr.1 default).ctf
      (connectionCommitted pc sources innerW ctfW pr))
    pc.accumCTF.prepareContribution

/-- The pore-volume-based pass as claim C1 words it: each committed
per-connection accumulator is folded into the outer accumulator via add
with the pore volume of that connection (read at its connecting cell) as
the weight; the per-cell samples carry pore-volume weights and the commit
uses the direct combination, as in the pore-volume pass of the source. -/
def specPVFoldClaimed (pc : PAvgCalculator) (sources : Sources)
    (pairs : List (ℕ × ℚ)) : Accumulator :=
  pairs.foldl
    (fun acc pr => acc.add
      (sampleAt pc sources (pc.connections.getD pr.1 default).cell).poreVol
      (connectionCommitted pc sources pvDefaultInnerWeight (fun src => src.poreVol) pr))
    pc.accumPV.prepareContribution

/-- The pore-volume-based pass as the source implements it: every cell
sample enters the shared accumulator directly, weighted by the pore volume
of that cell, and the accumulator is committed once at the end of the
pass with the default inner weight. -/
def specPVDirect (pc : PAvgCalculator) (sources : Sources)
    (pairs : List (ℕ × ℚ)) : Accumulator :=
  (pairs.foldl
    (fun acc pr => connectionSamples pc sources (fun src => src.poreVol) pr acc)
    pc.accumPV.prepareContribution).commitContribution pvDefaultInnerWeight

/-- The addContrib closure acts componentwise: the CTF component with the
CTF pass weight and the pore-volume component with the pore volume of the
cell. -/
theorem contribCell_eq (pc : PAvgCalculator) (sources : Sources)
    (ctfW : CellSrc → ℚ) (dp : ℚ) (i : ℕ)
    (handler : Accumulator → ℚ → ℚ → Accumulator)
    (st : Accumulator × Accumulator) :
    contribCell pc sources ctfW dp i handler st
      = (feedTerm pc sources ctfW dp handler st.1 i,
         feedTerm pc sources (fun src => src.poreVol) dp handler st.2 i) := rfl

/-- A fold of addContrib steps over a neighbour list splits into the two
componentwise folds. -/
theorem foldl_contrib_split (pc : PAvgCalculator) (sources : Sources)
    (ctfW : CellSrc → ℚ) (dp : ℚ)
    (handler : Accumulator → ℚ → ℚ → Accumulator) (l : List ℕ)
    (c pv : Accumulator) :
    l.foldl (fun s n => contribCell pc sources ctfW dp n handler s) (c, pv)
      = (l.foldl (feedTerm pc sources ctfW dp handler) c,
         l.foldl (feedTerm pc sources (fun src => src.poreVol) dp handler) pv) := by
  induction l generalizing c pv with
  | nil => rfl
  | cons n t ih =>
    simp only [List.foldl_cons, contribCell_eq]
    exact ih _ _

/-- Preparing the accumulation and the contribution of any accumulator
yields the freshly constructed accumulator. -/
theorem prepare_prepare_eq_zero (a : Accumulator) :
    a.prepareAccumulation.prepareContribution = Accumulator.zero := rfl

/-- The loop body of the generic pass decomposes: the outer CTF
accumulator absorbs the committed per-connection accumulator weighted by
the CTF of the connection, and the pore-volume accumulator absorbs the
samples of the connection directly. -/
theorem processConnection_eq (pc : PAvgCalculator) (sources : Sources)
    (innerW : ℚ) (ctfW : CellSrc → ℚ)
    (st : Accumulator × Accumulator × Accumulator) (pr : ℕ × ℚ) :
    processConnection pc sources innerW ctfW st pr
      = (st.1.add (pc.connections.getD pr.1 default).ctf
            (connectionCommitted pc sources innerW ctfW pr),
         connectionSamples pc sources (fun src => src.poreVol) pr st.2.1,
         connectionCommitted pc sources innerW ctfW pr) := by
  simp only [processConnection]
  rw [prepare_prepare_eq_zero, contribCell_eq, foldl_contrib_split,
    foldl_contrib_split]
  rfl

/-- The generic pass fold splits into the spec-side CTF fold and the
direct pore-volume fold, for every starting state. -/
theorem pass_fold_split (pc : PAvgCalculator) (sources : Sources)
    (innerW : ℚ) (ctfW : CellSrc → ℚ) (pairs : List (ℕ × ℚ)) :
    ∀ ctf pv c : Accumulator,
      ((pairs.foldl (processConnection pc sources innerW ctfW) (ctf, pv, c)).1
        = pairs.foldl
            (fun acc pr => acc.add (pc.connections.getD pr.1 default).ctf
              (connectionCommitted pc sources innerW ctfW pr)) ctf)
      ∧ ((pairs.foldl (processConnection pc sources innerW ctfW) (ctf, pv, c)).2.1
        = pairs.foldl
            (fun acc pr => connectionSamples pc sources (fun src => src.poreVol) pr acc)
            pv) := by
  induction pairs with
  | nil => intro ctf pv c; exact ⟨rfl, rfl⟩
  | cons pr t ih =>
    intro ctf pv c
    simp only [List.foldl_cons, processConnection_eq]
    exact ih _ _ _

/-- C1 (amended): in every invocation of the generic local pass the outer
CTF accumulator is the fold of the committed per-connection accumulators
via add with the CTF of each connection as the weight, while the
pore-volume accumulator is not folded per connection: it receives every
cell sample directly, weighted by the pore volume of that cell, and is
committed once at the end of the pass. -/
theorem accumulateLocal_structure (pc : PAvgCalculator) (sources : Sources)
    (innerW : ℚ) (ctfW : CellSrc → ℚ) (pairs : List (ℕ × ℚ)) :
    accumulateLocalContributionsG pc sources innerW ctfW pairs
      = (specCTFAccumulate pc sources innerW ctfW pairs,
         specPVDirect pc sources pairs) := by
  have h := pass_fold_split pc sources innerW ctfW pairs
    pc.accumCTF.prepareContribution pc.accumPV.prepareContribution Accumulator.zero
  simp only [accumulateLocalContributionsG, specCTFAccumulate, specPVDirect]
  rw [Prod.ext_iff]
  exact ⟨h.1, by simp only [h.2]⟩

/-- Source data for the C1 counterexample: five cells with distinct
pressures and pore volumes. -/
def cexSources : Sources :=
  ⟨fun i => [⟨0, 1, 0⟩, ⟨2, 1, 0⟩, ⟨4, 3, 0⟩, ⟨0, 1, 0⟩, ⟨10, 1, 0⟩].getD i ⟨0, 0, 0⟩,
   fun _ => 0⟩

/-- C1 counterexample: at a concrete two-connection invocation the
pore-volume accumulator computed by the pass differs, already in its WBP4
average, from the per-connection fold that the claim describes. -/
theorem accumulateLocal_pv_not_folded :
    value ((accumulateLocalContributionsG exCalc2 cexSources (1/2) (fun _ => 1)
        [(0, 0), (1, 0)]).2.avg1)
      ≠ value ((specPVFoldClaimed exCalc2 cexSources [(0, 0), (1, 0)]).avg1) := by
  norm_num [accumulateLocalContributionsG, processConnection, contribCell,
    specPVFoldClaimed, connectionCommitted, connectionSamples, feedTerm, sampleAt,
    exCalc2, cexSources, pvDefaultInnerWeight,
    Accumulator.addCentre, Accumulator.addRectangular, Accumulator.addDiagonal,
    Accumulator.add, Accumulator.prepareAccumulation, Accumulator.prepareContribution,
    Accumulator.commitContribution, Accumulator.combineDirect, Accumulator.combineWeighted,
    Accumulator.zero, WeightedRunningAverage.cleared, WeightedRunningAverage.addAvg,
    WeightedRunningAverage.add, WeightedRunningAverage.combine,
    RunningCompensatedSummation.addSum, RunningCompensatedSummation.clear,
    addTerm_eq, value, absQ]

/-- C4: on every successful invocation of inferBlockAveragePressures each
published pressure equals F2 times the final value of the CTF-weighted
accumulator plus 1 - F2 times the final value of the pore-volume-weighted
accumulator. -/
theorem inferBlockAveragePressures_blend (pc : PAvgCalculator)
    (sources : Sources) (controls : PAvgControls) (g rd : ℚ)
    (pcOut : PAvgCalculator)
    (h : inferBlockAveragePressures pc sources controls g rd = .ok pcOut) :
    pcOut.averagePressures.wbp
        = controls.connWeight * value pcOut.accumCTF.avg0
          + (1 - controls.connWeight) * value pcOut.accumPV.avg0
    ∧ pcOut.averagePressures.wbp4
        = controls.connWeight * value pcOut.accumCTF.avg1
          + (1 - controls.connWeight) * value pcOut.accumPV.avg1
    ∧ pcOut.averagePressures.wbp5
        = controls.connWeight * value pcOut.accumCTF.avg2
          + (1 - controls.connWeight) * value pcOut.accumPV.avg2
    ∧ pcOut.averagePressures.wbp9
        = controls.connWeight * value pcOut.accumCTF.avg3
          + (1 - controls.connWeight) * value pcOut.accumPV.avg3 := by
  cases hT : accumulateLocalContributionsTop pc sources controls g rd with
  | error e => simp [inferBlockAveragePressures, hT] at h
  | ok mid =>
    simp only [inferBlockAveragePressures, hT, Except.ok.injEq] at h
    subst h
    simp [assignResults, collectGlobalContributions, linearCombination,
      Accumulator.getFinalResult]

/-- The calculator with no connections and no cells. -/
def emptyCalc : PAvgCalculator := ⟨[], [], [], .zero, .zero, .zero⟩

/-- C4 witness: a successful invocation on the empty calculator satisfies
the blend identity in its WBP component. -/
theorem inferBlockAveragePressures_blend_w :
    emptyCalc.averagePressures.wbp
      = (1/3 : ℚ) * value emptyCalc.accumCTF.avg0
        + (1 - 1/3) * value emptyCalc.accumPV.avg0 :=
  (inferBlockAveragePressures_blend emptyCalc exSources exControlsNone 5 7
    emptyCalc (by
      norm_num [inferBlockAveragePressures, accumulateLocalContributionsTop,
        accumulateLocalContributionsSel, accumulateLocalContributionsG,
        connectionPressureOffset, connIndexList, emptyCalc, exControlsNone,
        assignResults, collectGlobalContributions, linearCombination,
        Accumulator.getFinalResult, Accumulator.prepareAccumulation,
        Accumulator.prepareContribution, Accumulator.commitContribution,
        Accumulator.combineWeighted, Accumulator.combineDirect, Accumulator.zero,
        WeightedRunningAverage.cleared, WeightedRunningAverage.addAvg,
        WeightedRunningAverage.add, WeightedRunningAverage.combine,
        RunningCompensatedSummation.addSum, RunningCompensatedSummation.clear,
        addTerm_eq, value, absQ, pvDefaultInnerWeight, Result.zero])).1

/-- Grid dimensions with the IJK to linear cell mapping.  Modelled from
the spec: class GridDims is declared outside the shown sources; the
linear index uses the standard I-fastest ordering and getIJK inverts
it. -/
structure GridDims where
  nx : ℕ
  ny : ℕ
  nz : ℕ
deriving DecidableEq, Repr

/-- Modelled from the spec: getGlobalIndex(i, j, k) of the grid mapping. -/
def GridDims.getGlobalIndex (g : GridDims) (i j k : ℕ) : ℕ :=
  i + g.nx * (j + g.ny * k)

/-- Modelled from the spec: getIJK, the inverse of the linear mapping. -/
def GridDims.getIJK (g : GridDims) (c : ℕ) : ℕ × ℕ × ℕ :=
  (c % g.nx, c / g.nx % g.ny, c / (g.nx * g.ny))

/-- globalCellIndex: linearised global cell id of an IJK triple, none
when an index is out of bounds.  The source computes neighbour offsets in
unsigned arithmetic, where subtracting one from zero wraps around to a
value that always fails the bounds test, so signed indices with explicit
lower bound checks are a faithful model. -/
def globalCellIndex (g : GridDims) (i j k : Int) : Option ℕ :=
  if i < 0 ∨ (g.nx : Int) ≤ i ∨ j < 0 ∨ (g.ny : Int) ≤ j
      ∨ k < 0 ∨ (g.nz : Int) ≤ k then
    none
  else
    some (g.getGlobalIndex i.toNat j.toNat k.toNat)

/-- Connection state as read by the calculator (only OPEN matters). -/
inductive ConnState where
  | OPEN : ConnState
  | SHUT : ConnState
deriving DecidableEq, Repr

/-- Connection direction as read by the calculator. -/
inductive ConnDirection where
  | X : ConnDirection
  | Y : ConnDirection
  | Z : ConnDirection
deriving DecidableEq, Repr

/-- The per-connection input read from class Connection: global cell
index, state, connection factor, depth and direction. -/
structure Connection where
  globalIndex : ℕ
  state : ConnState
  cf : ℚ
  depth : ℚ
  dir : ConnDirection
deriving DecidableEq, Repr

/-- The two neighbour kinds. -/
inductive NeighbourKind where
  | Rectangular : NeighbourKind
  | Diagonal : NeighbourKind
deriving DecidableEq, Repr

/-- The construction helper map from global cell id to local index
(SetupMap, an unordered map in the source). -/
abbrev SetupMap := List (ℕ × ℕ)

/-- Lookup of a key in the helper map. -/
def mapLookup : SetupMap → ℕ → Option ℕ
  | [], _ => none
  | p :: rest, k => if p.1 = k then some p.2 else mapLookup rest k

/-- emplace(key, v): the mapped value together with the flag telling
whether a new entry was inserted, and the updated map. -/
def emplace (m : SetupMap) (k v : ℕ) : (ℕ × Bool) × SetupMap :=
  match mapLookup m k with
  | some v0 => ((v0, false), m)
  | none => ((v, true), m ++ [(k, v)])

/-- The construction-time state: the calculator being built and the
helper map. -/
structure BuildState where
  pcalc : PAvgCalculator
  map : SetupMap

/-- Apply a function to the last element of a list (the mutation of
connections_.back() in the source). -/
def modifyLast (f : PAvgConnection → PAvgConnection) :
    List PAvgConnection → List PAvgConnection
  | [] => []
  | [c] => [f c]
  | c :: c2 :: rest => c :: modifyLast f (c2 :: rest)

/-- addNeighbour: resolve the optional neighbour cell through the helper
map, extend the contributing cells on first sight, and append the local
index to the rectangular or diagonal list of the last connection. -/
def addNeighbour (st : BuildState) (neighbour : Option ℕ)
    (kind : NeighbourKind) : BuildState :=
  match neighbour with
  | none => st
  | some gid =>
    let r := emplace st.map gid st.pcalc.contributingCells.length
    let cells := if r.1.2 then st.pcalc.contributingCells ++ [gid]
                 else st.pcalc.contributingCells
    let upd := fun (c : PAvgConnection) =>
      match kind with
      | .Rectangular => { c with rectNeighbours := c.rectNeighbours ++ [r.1.1] }
      | .Diagonal => { c with diagNeighbours := c.diagNeighbours ++ [r.1.1] }
    ⟨{ st.pcalc with
        contributingCells := cells
        connections := modifyLast upd st.pcalc.connections }, r.2⟩

/-- lastConnsCell: the global cell id of the cell of the last added
connection. -/
def lastConnsCell (st : BuildState) : ℕ :=
  st.pcalc.contributingCells.getD (st.pcalc.connections.getLastD default).cell 0

/-- addNeighbours_X: the neighbour pattern for an X-direction connection,
offsets in the J and K axes. -/
def addNeighbours_X (g : GridDims) (st : BuildState) : BuildState :=
  let ijk := g.getIJK (lastConnsCell st)
  let i : Int := ijk.1
  let j : Int := ijk.2.1
  let k : Int := ijk.2.2
  let s1 := addNeighbour st (globalCellIndex g i j (k+1)) .Rectangular
  let s2 := addNeighbour s1 (globalCellIndex g i j (k-1)) .Rectangular
  let s3 := addNeighbour s2 (globalCellIndex g i (j+1) k) .Rectangular
  let s4 := addNeighbour s3 (globalCellIndex g i (j-1) k) .Rectangular
  let s5 := addNeighbour s4 (globalCellIndex g i (j+1) (k+1)) .Diagonal
  let s6 := addNeighbour s5 (globalCellIndex g i (j+1) (k-1)) .Diagonal
  let s7 := addNeighbour s6 (globalCellIndex g i (j-1) (k+1)) .Diagonal
  addNeighbour s7 (globalCellIndex g i (j-1) (k-1)) .Diagonal

/-- addNeighbours_Y: the neighbour pattern for a Y-direction connection,
offsets in the I and K axes. -/
def addNeighbours_Y (g : GridDims) (st : BuildState) : BuildState :=
  let ijk := g.getIJK (lastConnsCell st)
  let i : Int := ijk.1
  let j : Int := ijk.2.1
  let k : Int := ijk.2.2
  let s1 := addNeighbour st (globalCellIndex g (i+1) j k) .Rectangular
  let s2 := addNeighbour s1 (globalCellIndex g (i-1) j k) .Rectangular
  let s3 := addNeighbour s2 (globalCellIndex g i j (k+1)) .Rectangular
  let s4 := addNeighbour s3 (globalCellIndex g i j (k-1)) .Rectangular
  let s5 := addNeighbour s4 (globalCellIndex g (i+1) j (k+1)) .Diagonal
  let s6 := addNeighbour s5 (globalCellIndex g (i-1) j (k+1)) .Diagonal
  let s7 := addNeighbour s6 (globalCellIndex g (i+1) j (k-1)) .Diagonal
  addNeighbour s7 (globalCellIndex g (i-1) j (k-1)) .Diagonal

/-- addNeighbours_Z: the neighbour pattern for a Z-direction connection,
offsets in the I and J axes. -/
def addNeighbours_Z (g : GridDims) (st : BuildState) : BuildState :=
  let ijk := g.getIJK (lastConnsCell st)
  let i : Int := ijk.1
  let j : Int := ijk.2.1
  let k : Int := ijk.2.2
  let s1 := addNeighbour st (globalCellIndex g (i+1) j k) .Rectangular
  let s2 := addNeighbour s1 (globalCellIndex g (i-1) j k) .Rectangular
  let s3 := addNeighbour s2 (globalCellIndex g i (j+1) k) .Rectangular
  let s4 := addNeighbour s3 (globalCellIndex g i (j-1) k) .Rectangular
  let s5 := addNeighbour s4 (globalCellIndex g (i+1) (j+1) k) .Diagonal
  let s6 := addNeighbour s5 (globalCellIndex g (i-1) (j+1) k) .Diagonal
  let s7 := addNeighbour s6 (globalCellIndex g (i+1) (j-1) k) .Diagonal
  addNeighbour s7 (globalCellIndex g (i-1) (j-1) k) .Diagonal

/-- The first half of addConnection: deduplicate the connecting cell,
record an open connection and append the new connection. -/
def registerConnection (st : BuildState) (conn : Connection) : BuildState :=
  let r := emplace st.map conn.globalIndex st.pcalc.contributingCells.length
  let cells := if r.1.2 then st.pcalc.contributingCells ++ [conn.globalIndex]
               else st.pcalc.contributingCells
  let opens := if conn.state = .OPEN
               then st.pcalc.openConns ++ [st.pcalc.connections.length]
               else st.pcalc.openConns
  let conns := st.pcalc.connections ++ [⟨conn.cf, conn.depth, r.1.1, [], []⟩]
  ⟨{ st.pcalc with
      contributingCells := cells
      openConns := opens
      connections := conns }, r.2⟩

/-- addConnection: deduplicate the connecting cell, record an open
connection, append the new connection and add its direction-specific
neighbours. -/
def addConnection (g : GridDims) (st : BuildState) (conn : Connection) :
    BuildState :=
  let st1 := registerConnection st conn
  match conn.dir with
  | .X => addNeighbours_X g st1
  | .Y => addNeighbours_Y g st1
  | .Z => addNeighbours_Z g st1

/-- The PAvgCalculator constructor: start from the empty state and add
every well connection in order. -/
def buildCalculator (g : GridDims) (conns : List Connection) : PAvgCalculator :=
  (conns.foldl (addConnection g) ⟨⟨[], [], [], .zero, .zero, .zero⟩, []⟩).pcalc

/-- Write consecutive counter values into a list at the positions given
by a second list: the newIndex-filling loop of pruneInactiveWBPCells. -/
def setAll : List ℕ → ℕ → List ℕ → List ℕ
  | v, _, [] => v
  | v, i, a :: rest => setAll (v.set a i) (i + 1) rest

/-- The newIndex vector of pruneInactiveWBPCells: length n, position
activeIx[i] holds i, inactive positions keep the initial zero. -/
def buildNewIndex (n : ℕ) (activeIx : List ℕ) : List ℕ :=
  setAll (List.replicate n 0) 0 activeIx

/-- The renumbering of one connection in pruneInactiveWBPCells: the cell
index is remapped, neighbours pointing at inactive cells are dropped and
the remaining ones remapped. -/
def remapConnection (isActive : List Bool) (newIndex : List ℕ)
    (c : PAvgConnection) : PAvgConnection :=
  { c with
    cell := newIndex.getD c.cell 0
    rectNeighbours := (c.rectNeighbours.filter
      (fun nb => isActive.getD nb false)).map (fun nb => newIndex.getD nb 0)
    diagNeighbours := (c.diagNeighbours.filter
      (fun nb => isActive.getD nb false)).map (fun nb => newIndex.getD nb 0) }

/-- pruneInactiveWBPCells: compact the contributing cells to the active
ones and renumber every stored local index; no-op when every cell is
active. -/
def pruneInactiveWBPCells (pc : PAvgCalculator) (isActive : List Bool) :
    PAvgCalculator :=
  let allIx := List.range isActive.length
  let activeIx := allIx.filter (fun i => isActive.getD i false)
  if activeIx.length = allIx.length then pc
  else
    let newCells := activeIx.map (fun i => pc.contributingCells.getD i 0)
    let newIndex := buildNewIndex isActive.length activeIx
    { pc with
        contributingCells := newCells
        connections := pc.connections.map (remapConnection isActive newIndex) }

/-- A connection whose stored indices are all valid for a contributing
cell array of length n. -/
def connValid (n : ℕ) (c : PAvgConnection) : Prop :=
  c.cell < n ∧ (∀ i ∈ c.rectNeighbours, i < n) ∧ (∀ i ∈ c.diagNeighbours, i < n)

/-- The index-validity invariant of the calculator: every stored cell or
neighbour index is a valid index into the contributing cell array. -/
def calcInvariant (pc : PAvgCalculator) : Prop :=
  ∀ c ∈ pc.connections, connValid pc.contributingCells.length c

instance (n : ℕ) (c : PAvgConnection) : Decidable (connValid n c) := by
  unfold connValid; infer_instance

instance (pc : PAvgCalculator) : Decidable (calcInvariant pc) := by
  unfold calcInvariant; infer_instance

/-- Every value stored in the helper map is a valid local index. -/
def mapBound (m : SetupMap) (n : ℕ) : Prop := ∀ p ∈ m, p.2 < n

/-- The construction invariant: the helper map and every connection only
hold valid local indices. -/
def buildInvariant (st : BuildState) : Prop :=
  mapBound st.map st.pcalc.contributingCells.length ∧ calcInvariant st.pcalc

/-- A successful lookup in the helper map yields a stored pair. -/
theorem mapLookup_mem : ∀ (m : SetupMap) (k v : ℕ), mapLookup m k = some v → (k, v) ∈ m := by
  intro m
  induction m with
  | nil => intro k v h; simp [mapLookup] at h
  | cons p rest ih =>
    intro k v h
    simp only [mapLookup] at h
    by_cases hk : p.1 = k
    · rw [if_pos hk] at h
      injection h with h2
      exact List.mem_cons.mpr (Or.inl (by rw [← hk, ← h2]))
    · rw [if_neg hk] at h
      exact List.mem_cons_of_mem _ (ih k v h)

/-- Index validity is monotone in the array length. -/
theorem connValid_mono {n m : ℕ} (h : n ≤ m) {c : PAvgConnection}
    (hc : connValid n c) : connValid m c :=
  ⟨lt_of_lt_of_le hc.1 h, fun i hi => lt_of_lt_of_le (hc.2.1 i hi) h,
   fun i hi => lt_of_lt_of_le (hc.2.2 i hi) h⟩

/-- Appending a valid index to the rectangular list keeps a connection
valid. -/
theorem connValid_push_rect {n : ℕ} {c : PAvgConnection} (hc : connValid n c)
    {v : ℕ} (hv : v < n) :
    connValid n { c with rectNeighbours := c.rectNeighbours ++ [v] } := by
  refine ⟨hc.1, ?_, hc.2.2⟩
  intro i hi
  rcases List.mem_append.mp hi with h1 | h1
  · exact hc.2.1 i h1
  · rw [List.mem_singleton.mp h1]; exact hv

/-- Appending a valid index to the diagonal list keeps a connection
valid. -/
theorem connValid_push_diag {n : ℕ} {c : PAvgConnection} (hc : connValid n c)
    {v : ℕ} (hv : v < n) :
    connValid n { c with diagNeighbours := c.diagNeighbours ++ [v] } := by
  refine ⟨hc.1, hc.2.1, ?_⟩
  intro i hi
  rcases List.mem_append.mp hi with h1 | h1
  · exact hc.2.2 i h1
  · rw [List.mem_singleton.mp h1]; exact hv

/-- Modifying the last element preserves a property that the modification
itself preserves. -/
theorem modifyLast_pred (f : PAvgConnection → PAvgConnection)
    (P : PAvgConnection → Prop) (hf : ∀ c, P c → P (f c)) :
    ∀ (l : List PAvgConnection), (∀ c ∈ l, P c) → ∀ c ∈ modifyLast f l, P c
  | [], _, c, hc => by simp [modifyLast] at hc
  | [a], h, c, hc => by
    simp only [modifyLast, List.mem_singleton] at hc
    rw [hc]
    exact hf a (h a (List.mem_singleton.mpr rfl))
  | a :: b :: t, h, c, hc => by
    simp only [modifyLast] at hc
    rcases List.mem_cons.mp hc with h1 | h1
    · rw [h1]; exact h a (List.mem_cons_self a _)
    · exact modifyLast_pred f P hf (b :: t)
        (fun x hx => h x (List.mem_cons_of_mem _ hx)) c h1

/-- addNeighbour preserves the construction invariant. -/
theorem addNeighbour_invariant (st : BuildState) (nb : Option ℕ)
    (kind : NeighbourKind) (h : buildInvariant st) :
    buildInvariant (addNeighbour st nb kind) := by
  obtain ⟨hmap, hcalc⟩ := h
  cases nb with
  | none => exact ⟨hmap, hcalc⟩
  | some gid =>
    cases hl : mapLookup st.map gid with
    | some v0 =>
      simp only [addNeighbour, emplace, hl]
      have hv0 : v0 < st.pcalc.contributingCells.length :=
        hmap _ (mapLookup_mem _ _ _ hl)
      refine ⟨hmap, ?_⟩
      intro c hc
      refine modifyLast_pred _ (connValid st.pcalc.contributingCells.length)
        ?_ _ hcalc c hc
      intro c2 hc2
      cases kind with
      | Rectangular => exact connValid_push_rect hc2 hv0
      | Diagonal => exact connValid_push_diag hc2 hv0
    | none =>
      simp only [addNeighbour, emplace, hl, if_true]
      constructor
      · intro p hp
        simp only [List.length_append, List.length_singleton]
        rcases List.mem_append.mp hp with h1 | h1
        · exact Nat.lt_succ_of_lt (hmap p h1)
        · rw [List.mem_singleton.mp h1]
          exact Nat.lt_succ_self _
      · intro c hc
        simp only [List.length_append, List.length_singleton]
        refine modifyLast_pred _
          (connValid (st.pcalc.contributingCells.length + 1)) ?_ _ ?_ c hc
        · intro c2 hc2
          cases kind with
          | Rectangular => exact connValid_push_rect hc2 (Nat.lt_succ_self _)
          | Diagonal => exact connValid_push_diag hc2 (Nat.lt_succ_self _)
        · intro c2 hc2
          exact connValid_mono (Nat.le_succ _) (hcalc c2 hc2)

/-- The X neighbour pattern preserves the construction invariant. -/
theorem addNeighbours_X_invariant (g : GridDims) (st : BuildState)
    (h : buildInvariant st) : buildInvariant (addNeighbours_X g st) := by
  simp only [addNeighbours_X]
  exact addNeighbour_invariant _ _ _ (addNeighbour_invariant _ _ _
    (addNeighbour_invariant _ _ _ (addNeighbour_invariant _ _ _
    (addNeighbour_invariant _ _ _ (addNeighbour_invariant _ _ _
    (addNeighbour_invariant _ _ _ (addNeighbour_invariant _ _ _ h)))))))

/-- The Y neighbour pattern preserves the construction invariant. -/
theorem addNeighbours_Y_invariant (g : GridDims) (st : BuildState)
    (h : buildInvariant st) : buildInvariant (addNeighbours_Y g st) := by
  simp only [addNeighbours_Y]
  exact addNeighbour_invariant _ _ _ (addNeighbour_invariant _ _ _
    (addNeighbour_invariant _ _ _ (addNeighbour_invariant _ _ _
    (addNeighbour_invariant _ _ _ (addNeighbour_invariant _ _ _
    (addNeighbour_invariant _ _ _ (addNeighbour_invariant _ _ _ h)))))))

/-- The Z neighbour pattern preserves the construction invariant. -/
theorem addNeighbours_Z_invariant (g : GridDims) (st : BuildState)
    (h : buildInvariant st) : buildInvariant (addNeighbours_Z g st) := by
  simp only [addNeighbours_Z]
  exact addNeighbour_invariant _ _ _ (addNeighbour_invariant _ _ _
    (addNeighbour_invariant _ _ _ (addNeighbour_invariant _ _ _
    (addNeighbour_invariant _ _ _ (addNeighbour_invariant _ _ _
    (addNeighbour_invariant _ _ _ (addNeighbour_invariant _ _ _ h)))))))

/-- registerConnection preserves the construction invariant. -/
theorem registerConnection_invariant (st : BuildState) (conn : Connection)
    (h : buildInvariant st) : buildInvariant (registerConnection st conn) := by
  obtain ⟨hmap, hcalc⟩ := h
  cases hl : mapLookup st.map conn.globalIndex with
  | some v0 =>
    simp only [registerConnection, emplace, hl]
    refine ⟨hmap, ?_⟩
    intro c hc
    rcases List.mem_append.mp hc with h1 | h1
    · exact hcalc c h1
    · rw [List.mem_singleton.mp h1]
      exact ⟨hmap _ (mapLookup_mem _ _ _ hl), by simp, by simp⟩
  | none =>
    simp only [registerConnection, emplace, hl, if_true]
    constructor
    · intro p hp
      simp only [List.length_append, List.length_singleton]
      rcases List.mem_append.mp hp with h1 | h1
      · exact Nat.lt_succ_of_lt (hmap p h1)
      · rw [List.mem_singleton.mp h1]
        exact Nat.lt_succ_self _
    · intro c hc
      simp only [List.length_append, List.length_singleton]
      rcases List.mem_append.mp hc with h1 | h1
      · exact connValid_mono (Nat.le_succ _) (hcalc c h1)
      · rw [List.mem_singleton.mp h1]
        exact ⟨Nat.lt_succ_self _, by simp, by simp⟩

/-- addConnection preserves the construction invariant. -/
theorem addConnection_invariant (g : GridDims) (st : BuildState)
    (conn : Connection) (h : buildInvariant st) :
    buildInvariant (addConnection g st conn) := by
  have h1 := registerConnection_invariant st conn h
  simp only [addConnection]
  cases conn.dir with
  | X => exact addNeighbours_X_invariant g _ h1
  | Y => exact addNeighbours_Y_invariant g _ h1
  | Z => exact addNeighbours_Z_invariant g _ h1

/-- The construction fold preserves the invariant from any starting
state. -/
theorem buildFold_invariant (g : GridDims) (conns : List Connection) :
    ∀ st : BuildState, buildInvariant st →
      buildInvariant (conns.foldl (addConnection g) st) := by
  induction conns with
  | nil => intro st h; exact h
  | cons c t ih =>
    intro st h
    simp only [List.foldl_cons]
    exact ih _ (addConnection_invariant g st c h)

/-- Topology construction establishes the index-validity invariant. -/
theorem buildCalculator_invariant (g : GridDims) (conns : List Connection) :
    calcInvariant (buildCalculator g conns) :=
  (buildFold_invariant g conns ⟨⟨[], [], [], .zero, .zero, .zero⟩, []⟩
    ⟨by intro p hp; simp at hp, by intro c hc; simp at hc⟩).2

/-- setAll preserves the list length. -/
theorem setAll_length : ∀ (l v : List ℕ) (i : ℕ), (setAll v i l).length = v.length := by
  intro l
  induction l with
  | nil => intro v i; rfl
  | cons a rest ih =>
    intro v i
    simp only [setAll]
    rw [ih]
    simp

/-- Every entry written by setAll stays below a bound that dominates both
the initial entries and the final counter value. -/
theorem setAll_lt (B : ℕ) : ∀ (l v : List ℕ) (i : ℕ),
    (∀ x ∈ v, x < B) → i + l.length ≤ B → ∀ x ∈ setAll v i l, x < B := by
  intro l
  induction l with
  | nil =>
    intro v i hv _
    simpa only [setAll] using hv
  | cons a rest ih =>
    intro v i hv hi
    simp only [List.length_cons] at hi
    simp only [setAll]
    refine ih (v.set a i) (i + 1) ?_ ?_
    · intro x hx
      rcases List.mem_or_eq_of_mem_set hx with h1 | h1
      · exact hv x h1
      · rw [h1]; omega
    · omega

/-- The newIndex vector has the mask length. -/
theorem buildNewIndex_length (n : ℕ) (l : List ℕ) :
    (buildNewIndex n l).length = n := by
  simp [buildNewIndex, setAll_length]

/-- With a nonempty active list every entry of the newIndex vector is a
valid index of the compacted array. -/
theorem buildNewIndex_lt (n : ℕ) (l : List ℕ) (hne : l ≠ []) :
    ∀ x ∈ buildNewIndex n l, x < l.length := by
  refine setAll_lt l.length l (List.replicate n 0) 0 ?_ (by simp)
  intro x hx
  rw [List.eq_of_mem_replicate hx]
  exact List.length_pos.mpr hne

/-- A getD read inside the bounds yields a member of the list. -/
theorem getD_mem_of_lt {α : Type} {l : List α} {n : ℕ} (h : n < l.length)
    (d : α) : l.getD n d ∈ l := by
  rw [List.getD_eq_getElem _ _ h]
  exact List.getElem_mem h

/-- pruneInactiveWBPCells preserves the index-validity invariant for
masks of matching length that keep at least one cell active or act on a
calculator without connections. -/
theorem prune_preserves_invariant (pc : PAvgCalculator) (mask : List Bool)
    (hinv : calcInvariant pc)
    (hlen : mask.length = pc.contributingCells.length)
    (hact : pc.connections = [] ∨ ∃ i, i < mask.length ∧ mask.getD i false = true) :
    calcInvariant (pruneInactiveWBPCells pc mask) := by
  simp only [pruneInactiveWBPCells]
  by_cases hall : ((List.range mask.length).filter (fun i => mask.getD i false)).length
      = (List.range mask.length).length
  · rw [if_pos hall]
    exact hinv
  · rw [if_neg hall]
    intro c hc
    simp only [List.mem_map] at hc
    obtain ⟨c0, hc0, rfl⟩ := hc
    have hc0v := hinv c0 hc0
    have hne : (List.range mask.length).filter (fun i => mask.getD i false) ≠ [] := by
      rcases hact with hconn | ⟨i, hi, hit⟩
      · rw [hconn] at hc0
        exact absurd hc0 (List.not_mem_nil c0)
      · intro hemp
        have hmem : i ∈ (List.range mask.length).filter (fun i => mask.getD i false) :=
          List.mem_filter.mpr ⟨List.mem_range.mpr hi, hit⟩
        rw [hemp] at hmem
        exact List.not_mem_nil i hmem
    have hNlen := buildNewIndex_length mask.length
      ((List.range mask.length).filter (fun i => mask.getD i false))
    have hNlt := buildNewIndex_lt mask.length
      ((List.range mask.length).filter (fun i => mask.getD i false)) hne
    simp only [List.length_map, remapConnection]
    refine ⟨?_, ?_, ?_⟩
    · apply hNlt
      apply getD_mem_of_lt
      rw [hNlen, hlen]
      exact hc0v.1
    · intro i hi
      simp only [List.mem_map] at hi
      obtain ⟨nb, hnb, rfl⟩ := hi
      apply hNlt
      apply getD_mem_of_lt
      rw [hNlen, hlen]
      exact hc0v.2.1 nb (List.mem_filter.mp hnb).1
    · intro i hi
      simp only [List.mem_map] at hi
      obtain ⟨nb, hnb, rfl⟩ := hi
      apply hNlt
      apply getD_mem_of_lt
      rw [hNlen, hlen]
      exact hc0v.2.2 nb (List.mem_filter.mp hnb).1

/-- C8: applied with an all-true mask of the length of the contributing
cell list, pruneInactiveWBPCells leaves the whole calculator state, in
particular the contributing cells and every stored cell and neighbour
index, unchanged. -/
theorem prune_alltrue_noop (pc : PAvgCalculator) (mask : List Bool)
    (hlen : mask.length = pc.contributingCells.length)
    (htrue : ∀ b ∈ mask, b = true) :
    pruneInactiveWBPCells pc mask = pc := by
  simp only [pruneInactiveWBPCells]
  have hfilter : (List.range mask.length).filter (fun i => mask.getD i false)
      = List.range mask.length := by
    apply List.filter_eq_self.mpr
    intro i hi
    have hlt : i < mask.length := List.mem_range.mp hi
    simpa using htrue _ (getD_mem_of_lt hlt false)
  rw [hfilter]
  simp

/-- A sample one-cell grid. -/
def exGrid1 : GridDims := ⟨1, 1, 1⟩

/-- A sample open Z-direction connection in the one-cell grid. -/
def exConn1 : Connection := ⟨0, .OPEN, 1, 0, .Z⟩

/-- C8 witness: the all-true mask of length five leaves the sample
calculator unchanged. -/
theorem prune_alltrue_noop_w :
    pruneInactiveWBPCells exCalc2 [true, true, true, true, true] = exCalc2 :=
  prune_alltrue_noop exCalc2 [true, true, true, true, true] (by decide) (by decide)

/-- C9 (amended): topology construction establishes the index-validity
invariant, and pruneInactiveWBPCells preserves it for every activity mask
of matching length that keeps at least one cell active (or when there are
no connections); an all-inactive mask over a calculator with connections
breaks it. -/
theorem topology_index_invariant :
    (∀ (g : GridDims) (conns : List Connection),
      calcInvariant (buildCalculator g conns))
    ∧ ∀ (pc : PAvgCalculator) (mask : List Bool), calcInvariant pc →
        mask.length = pc.contributingCells.length →
        (pc.connections = [] ∨ ∃ i, i < mask.length ∧ mask.getD i false = true) →
        calcInvariant (pruneInactiveWBPCells pc mask) :=
  ⟨buildCalculator_invariant, prune_preserves_invariant⟩

/-- C9 witness: the invariant holds for the freshly built one-connection
calculator and survives pruning with the all-true mask. -/
theorem topology_index_invariant_w :
    calcInvariant (pruneInactiveWBPCells (buildCalculator exGrid1 [exConn1]) [true]) :=
  topology_index_invariant.2 (buildCalculator exGrid1 [exConn1]) [true]
    (topology_index_invariant.1 exGrid1 [exConn1]) (by decide)
    (Or.inr ⟨0, by decide, by decide⟩)

/-- C9 counterexample: pruning the one-connection calculator with the
all-false mask of matching length leaves the connection pointing at index
zero of the emptied contributing-cell array, so the invariant fails for
that mask. -/
theorem prune_invariant_cex :
    ¬ calcInvariant (pruneInactiveWBPCells (buildCalculator exGrid1 [exConn1]) [false]) := by
  decide

end OpmPAvg
